import Mathlib

/-!
Shallow embedding of the `valence_playground` chunk-generation core
(`src/minecraft/world_gen/chunk_worker.rs`, `src/minecraft/save.rs`,
`src/minecraft/world_gen.rs`, `src/config/world.rs`, `src/lib.rs`).

Modelling conventions:
* `f64` values are modelled as exact rational numbers; every float literal of
  the generator is modelled by its decimal value.  The two literals that are
  not exactly representable in binary (`0.55`, `0.7`) only gate comparisons
  against abstract noise outputs, so the model is faithful up to renaming of
  the abstract threshold.
* The `SuperSimplex` noise construction is opaque: a noise field is an
  arbitrary function `DVec3 → ℚ` and `SuperSimplex::new` is an arbitrary
  family indexed by the seed.
* `u32` seeds are natural numbers; `wrapping_add` is addition modulo `2^32`.
* Panics (`usize` underflow in debug builds, the out-of-range assertion of
  valence's `Chunk::block_state`, failed `unwrap`) are modelled as
  `Except.error ()`.
* File-system state is a function from region coordinates to the content of
  the corresponding `{rx}_{rz}.region` file.
-/

namespace VP

/-- Block states: the semantic constants referenced by the generator together
with the decoration states it places.  Valence encodes block states as opaque
16-bit codes; only these constructors are produced or compared by the
embedded code, and the two `Half` property variants of the tall plants are
distinct states. -/
inductive BlockState where
  | air
  | stone
  | dirt
  | grassBlock
  | gravel
  | sand
  | water
  | grass
  | tallGrassLower
  | tallGrassUpper
  | seagrass
  | tallSeagrassLower
  | tallSeagrassUpper
deriving DecidableEq

/-- Raw code of a block state (`BlockState::to_raw`).  The concrete values are
opaque in the source; the embedding fixes an injective enumeration. -/
def BlockState.toRaw : BlockState → Nat
  | .air => 0
  | .stone => 1
  | .dirt => 2
  | .grassBlock => 3
  | .gravel => 4
  | .sand => 5
  | .water => 6
  | .grass => 7
  | .tallGrassLower => 8
  | .tallGrassUpper => 9
  | .seagrass => 10
  | .tallSeagrassLower => 11
  | .tallSeagrassUpper => 12

/-- Embedding of `BlockState::from_raw`: succeeds exactly on the codes of known states. -/
def BlockState.fromRaw : Nat → Option BlockState
  | 0 => some .air
  | 1 => some .stone
  | 2 => some .dirt
  | 3 => some .grassBlock
  | 4 => some .gravel
  | 5 => some .sand
  | 6 => some .water
  | 7 => some .grass
  | 8 => some .tallGrassLower
  | 9 => some .tallGrassUpper
  | 10 => some .seagrass
  | 11 => some .tallSeagrassLower
  | 12 => some .tallSeagrassUpper
  | _ => none

/-- Embedding of `BlockState::is_air`. -/
def BlockState.isAir : BlockState → Bool
  | .air => true
  | _ => false

/-- Embedding of `BlockState::is_liquid`: of the states this generator produces only
`WATER` is a fluid. -/
def BlockState.isLiquid : BlockState → Bool
  | .water => true
  | _ => false

/-- Three-component `f64` vector (`DVec3`), with exact rational coordinates. -/
structure DVec3 where
  x : ℚ
  y : ℚ
  z : ℚ

/-- Componentwise division by a scalar (`p / s`). -/
def DVec3.div (p : DVec3) (s : ℚ) : DVec3 := ⟨p.x / s, p.y / s, p.z / s⟩

/-- Componentwise multiplication by a scalar (`p * s`). -/
def DVec3.smul (p : DVec3) (s : ℚ) : DVec3 := ⟨p.x * s, p.y * s, p.z * s⟩

/-- A gradient-noise field: what `SuperSimplex::get` computes. -/
abbrev NoiseField := DVec3 → ℚ

/-- A family of noise fields indexed by seed: what `SuperSimplex::new`
constructs. -/
abbrev NoiseFamily := Nat → NoiseField

/-- Embedding of `noise01`: rescale a noise sample from `[-1, 1]` to `[0, 1]`. -/
def noise01 (noise : NoiseField) (p : DVec3) : ℚ := (noise p + 1) / 2

/-- Linear interpolation, as in the source. -/
def lerp (a b t : ℚ) : ℚ := a * (1 - t) + b * t

/-- Embedding of `lerpstep` from the source. -/
def lerpstep (edge0 edge1 x : ℚ) : ℚ :=
  if x ≤ edge0 then 0
  else if edge1 ≤ x then 1
  else (x - edge0) / (edge1 - edge0)

/-- The loop body of `fbm`, accumulating `(sum, amp_sum)` over the octaves. -/
def fbmGo (noise : NoiseField) (p : DVec3) (lacunarity persistence : ℚ) :
    Nat → ℚ → ℚ → ℚ → ℚ → ℚ × ℚ
  | 0, _, _, ampSum, sum => (sum, ampSum)
  | n + 1, freq, amp, ampSum, sum =>
      let nv := noise01 noise (p.smul freq)
      fbmGo noise p lacunarity persistence n (freq * lacunarity) (amp * persistence)
        (ampSum + amp) (sum + nv * amp)

/-- Embedding of `fbm`: amplitude-weighted sum of octaves, normalised by the amplitude
sum. -/
def fbm (noise : NoiseField) (p : DVec3) (octaves : Nat) (lacunarity persistence : ℚ) : ℚ :=
  let r := fbmGo noise p lacunarity persistence octaves 1 1 0 0
  r.1 / r.2

/-- Embedding of `FBMSettings` from `chunk_worker.rs`. -/
structure FBMSettings where
  point_scaleing : ℚ
  octaves : Nat
  lacunarity : ℚ
  persistence : ℚ
deriving DecidableEq

/-- Embedding of `FBMSettings::call`. -/
def FBMSettings.call (s : FBMSettings) (noise : NoiseField) (p : DVec3) : ℚ :=
  fbm noise (p.div s.point_scaleing) s.octaves s.lacunarity s.persistence

/-- Embedding of `FBMSettings::default_gravel` (persistence `-1.5`). -/
def FBMSettings.default_gravel : FBMSettings := ⟨10, 3, 2, -(3/2)⟩

/-- Embedding of `FBMSettings::default_sand`. -/
def FBMSettings.default_sand : FBMSettings := ⟨10, 1, 2, 1/2⟩

/-- Embedding of `TerrainSettings` from `chunk_worker.rs`. -/
structure TerrainSettings where
  enable_gravel : Bool
  gravel_height : FBMSettings
  enable_sand : Bool
  sand_offset : Int
  sand_height : FBMSettings
  enable_stone : Bool
  stone_point_scaleing : ℚ
  enable_grass : Bool
  enable_water : Bool
  seed : Nat
deriving DecidableEq

/-- Embedding of `TerrainSettings::default`, with the configured seed passed explicitly
(the source draws it from the global configuration). -/
def TerrainSettings.defaultWith (seed : Nat) : TerrainSettings :=
  { enable_gravel := true
    gravel_height := .default_gravel
    enable_sand := true
    sand_offset := 5
    sand_height := .default_sand
    enable_stone := true
    stone_point_scaleing := 15
    enable_grass := true
    enable_water := true
    seed := seed }

/-- Embedding of `ChunkPos` from valence: a pair of signed 32-bit coordinates. -/
structure ChunkPos where
  x : Int
  z : Int
deriving DecidableEq

/-- Embedding of `SECTION_COUNT` from `lib.rs`. -/
def SECTION_COUNT : Nat := 24

/-- A chunk: a grid of block states addressed by
`(offset_x, y, offset_z)` with offsets in `0..16` and `y` in
`0..section_count*16`.  The grid is modelled as a total function; cells
outside the addressable range are never written. -/
structure Chunk where
  section_count : Nat
  data : Nat → Nat → Nat → BlockState

/-- Embedding of `Chunk::new`: all cells start as `AIR`. -/
def Chunk.new (sections : Nat) : Chunk := ⟨sections, fun _ _ _ => .air⟩

/-- Embedding of `Chunk::set_block_state` (in-range writes only in the embedded code). -/
def Chunk.set_block_state (c : Chunk) (x y z : Nat) (b : BlockState) : Chunk :=
  { c with data := fun a b' c' => if a = x ∧ b' = y ∧ c' = z then b else c.data a b' c' }

/-- Embedding of `Chunk::block_state`: valence asserts the coordinates are in range and
panics otherwise; the panic is modelled as `Except.error ()`. -/
def Chunk.block_stateE (c : Chunk) (x y z : Nat) : Except Unit BlockState :=
  if x < 16 ∧ z < 16 ∧ y < c.section_count * 16 then .ok (c.data x y z) else .error ()

/-- Embedding of `ChunkWorkerState` from `chunk_worker.rs`: the current settings and the
five seeded noise fields. -/
structure ChunkWorkerState where
  settings : TerrainSettings
  density : NoiseField
  hilly : NoiseField
  stone : NoiseField
  gravel : NoiseField
  grass : NoiseField

/-- The modulus `2^32` of `u32` wrapping arithmetic. -/
def U32_MOD : Nat := 2 ^ 32

/-- The worker state built from a base seed: the five noise fields are seeded
with `seed, seed+1, …, seed+4` using wrapping addition, exactly as in
`world_gen.rs::setup` and in the `SetTerrainSettings` arm. -/
def fields_from (S : NoiseFamily) (seed : Nat) (settings : TerrainSettings) : ChunkWorkerState :=
  { settings := settings
    density := S seed
    hilly := S ((seed + 1) % U32_MOD)
    stone := S ((seed + 2) % U32_MOD)
    gravel := S ((seed + 3) % U32_MOD)
    grass := S ((seed + 4) % U32_MOD) }

/-- The worker state a set of parameters should induce: fields derived from
its own seed. -/
def stateOf (S : NoiseFamily) (settings : TerrainSettings) : ChunkWorkerState :=
  fields_from S settings.seed settings

/-- Embedding of `has_terrain_at` from `chunk_worker.rs`. -/
def has_terrain_at (st : ChunkWorkerState) (p : DVec3) : Bool :=
  let hilly := (lerp (1/10) 1 (noise01 st.hilly (p.div 400)))^2
  let lower := 64 + 100 * hilly
  let upper := lower + 100 * hilly
  if p.y ≤ lower then true
  else if upper ≤ p.y then false
  else
    let density := 1 - lerpstep lower upper p.y
    let n := fbm st.density (p.div 100) 4 2 (1/2)
    decide (n < density)

/-- Embedding of `WATER_HEIGHT` from `gen_block`. -/
def WATER_HEIGHT : Int := 120

/-- Embedding of `f64::round`: round half away from zero. -/
def rustRound (q : ℚ) : Int := if 0 ≤ q then ⌊q + 1/2⌋ else -⌊-q + 1/2⌋

/-- The body of the terrain-fill loop of `gen_block` for one cell: given the
world column `(x, z)`, the height `y` and the running `(in_terrain, depth)`
state, produce the emitted block and the next state.  `as u64` on the rounded
noise saturates at `0` for negative values, which `Int.toNat` models. -/
def genBlockStep (st : ChunkWorkerState) (x z : Int) (y : Nat) (it : Bool) (d : Nat) :
    BlockState × Bool × Nat :=
  let p : DVec3 := ⟨(x : ℚ), (y : ℚ), (z : ℚ)⟩
  if has_terrain_at st p then
    let gravel_fbm := st.settings.gravel_height.call st.gravel p
    let gravel_height : Int := WATER_HEIGHT - 1 - ⌊gravel_fbm * 6⌋
    let sand_fbm := st.settings.sand_height.call st.gravel p
    let sand_height : Int := gravel_height + st.settings.sand_offset + ⌊sand_fbm * 6⌋
    if it then
      if 0 < d then
        ((if (y : Int) < gravel_height ∧ st.settings.enable_gravel = true then BlockState.gravel
          else if st.settings.enable_grass = true then BlockState.dirt
          else BlockState.air), true, d - 1)
      else
        ((if st.settings.enable_stone = true then BlockState.stone else BlockState.air), true, d)
    else
      let n := noise01 st.stone (p.div st.settings.stone_point_scaleing)
      let d0 := (rustRound (n * 5)).toNat
      ((if (y : Int) < gravel_height ∧ st.settings.enable_gravel = true then BlockState.gravel
        else if gravel_height ≤ (y : Int) ∧ (y : Int) < sand_height ∧
            st.settings.enable_sand = true then BlockState.sand
        else if st.settings.enable_grass = true then BlockState.grassBlock
        else BlockState.air), true, d0)
  else
    ((if (y : Int) < WATER_HEIGHT ∧ st.settings.enable_water = true then BlockState.water
      else BlockState.air), false, 0)

/-- The terrain-fill loop of `gen_block`, walking `y` from `fuel - 1` down to
`0` and writing each cell. -/
def fillGo (st : ChunkWorkerState) (x z : Int) (ox oz : Nat) :
    Nat → Chunk → Bool → Nat → Chunk
  | 0, c, _, _ => c
  | n + 1, c, it, d =>
      let r := genBlockStep st x z n it d
      fillGo st x z ox oz n (c.set_block_state ox n oz r.1) r.2.1 r.2.2

/-- The complete fill pass of `gen_block` for one column, starting from the
top with `in_terrain = false` and `depth = 0`. -/
def fillColumn (st : ChunkWorkerState) (c : Chunk) (x z : Int) (ox oz : Nat) : Chunk :=
  fillGo st x z ox oz (c.section_count * 16) c false 0

/-- One step of the decoration pass of `gen_block` at height `y`.  The
`y - 1` index is computed on `usize`: at `y = 0` it underflows, which aborts
generation (overflow panic in debug builds, out-of-range panic of
`block_state` in release builds); this is modelled as `Except.error ()`.
The short-circuit order of the source conditions is preserved. -/
def decorateStepE (st : ChunkWorkerState) (c : Chunk) (x z : Int) (ox oz y : Nat) :
    Except Unit Chunk := do
  let cur ← c.block_stateE ox y oz
  if cur.isAir then do
    let below ← if y = 0 then Except.error () else c.block_stateE ox (y - 1) oz
    if below = BlockState.grassBlock then
      let p : DVec3 := ⟨(x : ℚ), (y : ℚ), (z : ℚ)⟩
      let density := fbm st.grass (p.div 5) 4 2 (7/10)
      if 11/20 < density then
        if 7/10 < density then do
          let above ← c.block_stateE ox (y + 1) oz
          if above.isAir then
            pure ((c.set_block_state ox (y + 1) oz .tallGrassUpper).set_block_state ox y oz
              .tallGrassLower)
          else pure (c.set_block_state ox y oz .grass)
        else pure (c.set_block_state ox y oz .grass)
      else pure c
    else pure c
  else if cur.isLiquid then do
    let below ← if y = 0 then Except.error () else c.block_stateE ox (y - 1) oz
    if below = BlockState.gravel ∧ st.settings.enable_water = true ∧
        st.settings.enable_gravel = true then
      let p : DVec3 := ⟨(x : ℚ), (y : ℚ), (z : ℚ)⟩
      let density := fbm st.grass (p.div 5) 4 2 (7/10)
      if 11/20 < density then
        if 7/10 < density then do
          let above ← c.block_stateE ox (y + 1) oz
          if above.isLiquid then
            pure ((c.set_block_state ox (y + 1) oz .tallSeagrassUpper).set_block_state ox y oz
              .tallSeagrassLower)
          else pure (c.set_block_state ox y oz .seagrass)
        else pure (c.set_block_state ox y oz .seagrass)
      else pure c
    else pure c
  else pure c

/-- The decoration loop, walking `y` from `fuel - 1` down to `0`. -/
def decorateGo (st : ChunkWorkerState) (x z : Int) (ox oz : Nat) :
    Nat → Chunk → Except Unit Chunk
  | 0, c => .ok c
  | n + 1, c => do
      let c1 ← decorateStepE st c x z ox oz n
      decorateGo st x z ox oz n c1

/-- The decoration pass of `gen_block`: only runs when
`(water && gravel) || grass`. -/
def decorateColumnE (st : ChunkWorkerState) (c : Chunk) (x z : Int) (ox oz : Nat) :
    Except Unit Chunk :=
  if (st.settings.enable_water && st.settings.enable_gravel) || st.settings.enable_grass then
    decorateGo st x z ox oz (c.section_count * 16) c
  else .ok c

/-- Embedding of `gen_block`: fill the column, then decorate it. -/
def gen_blockE (st : ChunkWorkerState) (c : Chunk) (x z : Int) (ox oz : Nat) :
    Except Unit Chunk :=
  decorateColumnE st (fillColumn st c x z ox oz) x z ox oz

/-- Embedding of `gen_chunk`: run `gen_block` over all 256 columns, `offset_z` outermost,
on a fresh chunk of `SECTION_COUNT` sections. -/
def gen_chunkE (st : ChunkWorkerState) (pos : ChunkPos) : Except Unit Chunk :=
  (List.range 16).foldlM
    (fun c (oz : Nat) =>
      (List.range 16).foldlM
        (fun c (ox : Nat) =>
          gen_blockE st c ((ox : Int) + pos.x * 16) ((oz : Int) + pos.z * 16) ox oz)
        c)
    (Chunk.new SECTION_COUNT)

/-- Embedding of `Block` from `save.rs`: one saved cell. -/
structure Block where
  x : Nat
  y : Nat
  z : Nat
  kind : Nat
deriving DecidableEq

/-- Embedding of `SaveChunk` from `save.rs`. -/
structure SaveChunk where
  pos : Int × Int
  blocks : List Block
deriving DecidableEq

/-- Embedding of `Region` from `save.rs`. -/
structure Region where
  pos : Int × Int
  settings : TerrainSettings
  chunks : List SaveChunk
deriving DecidableEq

/-- Embedding of `Region::chunk`: the first saved chunk whose position equals `pos`. -/
def Region.chunk (r : Region) (pos : ChunkPos) : Option SaveChunk :=
  r.chunks.find? fun c => decide (c.pos = (pos.x, pos.z))

/-- Modelled from the spec: the crate-level constant `REGION_SIZE` is defined
in the crate root, which is not under `src/` (the `lib.rs` present is an
earlier iteration without it).  The spec fixes regions to 16×16 chunks with
`rx = floor(x/16)`, so `REGION_SIZE = 16`. -/
def REGION_SIZE : ℚ := 16

/-- Embedding of `chunkpos_to_regionpos`: `(pos.x as f64 / REGION_SIZE).floor() as i64`.
Converting an `i32` to `f64` and dividing by 16 are both exact in `f64`, so
the rational model is exact. -/
def chunkpos_to_regionpos (pos : ChunkPos) : Int × Int :=
  (⌊(pos.x : ℚ) / REGION_SIZE⌋, ⌊(pos.z : ℚ) / REGION_SIZE⌋)

/-- Content of one `{rx}_{rz}.region` file: absent, unreadable, or a
deserialisable region. -/
inductive DiskFile where
  | missing
  | corrupt
  | stored (r : Region)

/-- The `./world/` directory, as a map from region coordinates to file
content. -/
abbrev Disk := (Int × Int) → DiskFile

/-- The failure modes of `load_region`. -/
inductive LoadErr where
  | notFound
  | corruptFile
  | settingsMismatch
deriving DecidableEq

/-- Embedding of `load_region` from `save.rs`: read the file, deserialise, and reject the
region unless its embedded settings equal the settings passed in. -/
def load_region (pos : Int × Int) (settings : TerrainSettings) (disk : Disk) :
    Except LoadErr Region :=
  match disk pos with
  | .missing => .error .notFound
  | .corrupt => .error .corruptFile
  | .stored r => if r.settings = settings then .ok r else .error .settingsMismatch

/-- Embedding of `From<Chunk> for SaveChunk`: record every cell, `(z, x)` outermost and
`y` descending, with `pos` initialised to `(0, 0)`. -/
def SaveChunk.ofChunk (c : Chunk) : SaveChunk :=
  { pos := (0, 0)
    blocks :=
      (List.range 16).flatMap fun oz =>
        (List.range 16).flatMap fun ox =>
          ((List.range (c.section_count * 16)).reverse).map fun y =>
            { x := ox, y := y, z := oz, kind := (c.data ox y oz).toRaw } }

/-- Embedding of `From<&SaveChunk> for Chunk` from `save.rs`: replay every saved cell onto
a fresh chunk.  `BlockState::from_raw(kind).unwrap()` cannot fail on kinds
written by `to_raw`; unknown kinds are skipped in the model. -/
def Chunk.ofSaveChunk (sc : SaveChunk) : Chunk :=
  sc.blocks.foldl
    (fun c b =>
      match BlockState.fromRaw b.kind with
      | some bs => c.set_block_state b.x b.y b.z bs
      | none => c)
    (Chunk.new SECTION_COUNT)

/-- Embedding of `save_chunk_to_region` from `save.rs`: load (or create) the containing
region and write it back.  The source builds
`region.chunks.iter().map(|c| if c.pos == save_chunk.pos { &save_chunk } else { c })`
but never consumes or stores the iterator, so the region is written back
unchanged; the dead computation is kept as a discarded binding. -/
def save_chunk_to_region (chunk : Chunk) (pos : ChunkPos) (settings : TerrainSettings)
    (disk : Disk) : Disk :=
  let rpos := chunkpos_to_regionpos pos
  let region :=
    match load_region rpos settings disk with
    | .ok r => r
    | .error _ => { pos := rpos, settings := settings, chunks := [] }
  let save_chunk : SaveChunk := { SaveChunk.ofChunk chunk with pos := (pos.x, pos.z) }
  let _ := region.chunks.map fun c => if c.pos = save_chunk.pos then save_chunk else c
  fun rp => if rp = rpos then .stored region else disk rp

/-- The mutable state of the (single, mutex-serialised) chunk worker: the LRU
cache and the generation state.  The cache is an association list in
most-recently-used-first order with capacity `cap`. -/
structure ChunkWorker where
  cache : List (ChunkPos × Chunk)
  cap : Nat
  state : ChunkWorkerState

/-- Embedding of `LruCache::contains`. -/
def cacheContains (cache : List (ChunkPos × Chunk)) (pos : ChunkPos) : Bool :=
  cache.any fun e => decide (e.1 = pos)

/-- Lookup in the cache. -/
def cacheGet (cache : List (ChunkPos × Chunk)) (pos : ChunkPos) : Option Chunk :=
  (cache.find? fun e => decide (e.1 = pos)).map (·.2)

/-- Embedding of `LruCache::get_mut` promotes the entry to most recently used. -/
def cachePromote (cache : List (ChunkPos × Chunk)) (pos : ChunkPos) :
    List (ChunkPos × Chunk) :=
  match cacheGet cache pos with
  | some c => (pos, c) :: cache.filter fun e => !decide (e.1 = pos)
  | none => cache

/-- Embedding of `LruCache::push`: insert as most recently used, evicting the least
recently used entries beyond the capacity. -/
def cachePush (cache : List (ChunkPos × Chunk)) (cap : Nat) (pos : ChunkPos) (c : Chunk) :
    List (ChunkPos × Chunk) :=
  ((pos, c) :: cache.filter fun e => !decide (e.1 = pos)).take cap

/-- Embedding of `handle_chunk` from `chunk_worker.rs`: cache, then store, then generate.
The store is read and written with the worker's current settings (the spec's
`current_params`; the call sites in `chunk_worker.rs` predate the settings
parameter of `save.rs`).  The fire-and-forget save task is modelled
synchronously.  Returns the new worker state, the new disk, and the chunk
emitted on the response channel. -/
def handle_chunkE (w : ChunkWorker) (disk : Disk) (pos : ChunkPos) :
    Except Unit (ChunkWorker × Disk × Chunk) :=
  if cacheContains w.cache pos then
    match cacheGet w.cache pos with
    | some c => .ok ({ w with cache := cachePromote w.cache pos }, disk, c)
    | none => .error ()
  else
    match load_region (chunkpos_to_regionpos pos) w.state.settings disk with
    | .ok region =>
        match region.chunk pos with
        | some c =>
            let chunk := Chunk.ofSaveChunk c
            .ok ({ w with cache := cachePush w.cache w.cap pos chunk }, disk, chunk)
        | none => do
            let chunk ← gen_chunkE w.state pos
            let disk1 := save_chunk_to_region chunk pos w.state.settings disk
            .ok ({ w with cache := cachePush w.cache w.cap pos chunk }, disk1, chunk)
    | .error _ => do
        let chunk ← gen_chunkE w.state pos
        let disk1 := save_chunk_to_region chunk pos w.state.settings disk
        .ok ({ w with cache := cachePush w.cache w.cap pos chunk }, disk1, chunk)

/-- Embedding of `WorkerMessage` from `chunk_worker.rs`. -/
inductive WorkerMessage where
  | chunk (pos : ChunkPos)
  | emptyCache
  | getTerrainSettings
  | setTerrainSettings (settings : TerrainSettings)

/-- Embedding of `WorkerResponse` from `chunk_worker.rs`. -/
inductive WorkerResponse where
  | chunk (pos : ChunkPos) (c : Chunk)
  | getTerrainSettings (settings : TerrainSettings)
  | terrainSettingsSet

/-- Whether a message is `SetTerrainSettings`. -/
def WorkerMessage.isSet : WorkerMessage → Bool
  | .setTerrainSettings _ => true
  | _ => false

/-- The `SetTerrainSettings` arm of `chunk_worker`: when the new seed differs
from the current one, rebuild the five noise fields from
`seed, seed+1, …, seed+4` with wrapping addition; then replace the settings
and clear the cache. -/
def applySetTerrainSettings (S : NoiseFamily) (w : ChunkWorker) (new : TerrainSettings) :
    ChunkWorker :=
  let st := w.state
  let st1 :=
    if new.seed ≠ st.settings.seed then
      { st with
        density := S new.seed
        hilly := S ((new.seed + 1) % U32_MOD)
        stone := S ((new.seed + 2) % U32_MOD)
        gravel := S ((new.seed + 3) % U32_MOD)
        grass := S ((new.seed + 4) % U32_MOD) }
    else st
  { w with state := { st1 with settings := new }, cache := [] }

/-- One iteration of the `chunk_worker` message loop, returning the responses
sent on the response channel. -/
def workerStepE (S : NoiseFamily) (w : ChunkWorker) (disk : Disk) (msg : WorkerMessage) :
    Except Unit (ChunkWorker × Disk × List WorkerResponse) :=
  match msg with
  | .chunk pos => (handle_chunkE w disk pos).map fun r => (r.1, r.2.1, [.chunk pos r.2.2])
  | .emptyCache => .ok ({ w with cache := [] }, disk, [])
  | .getTerrainSettings => .ok (w, disk, [.getTerrainSettings w.state.settings])
  | .setTerrainSettings new => .ok (applySetTerrainSettings S w new, disk, [.terrainSettingsSet])

/-- The `chunk_worker` loop over a list of messages, concatenating the
responses in emission order. -/
def runWorkerE (S : NoiseFamily) (w : ChunkWorker) (disk : Disk) :
    List WorkerMessage → Except Unit (ChunkWorker × Disk × List WorkerResponse)
  | [] => .ok (w, disk, [])
  | msg :: rest => do
      let r ← workerStepE S w disk msg
      let r2 ← runWorkerE S r.1 r.2.1 rest
      .ok (r2.1, r2.2.1, r.2.2 ++ r2.2.2)

/-- Embedding of `Priority` from `world_gen.rs`: smaller is dispatched first. -/
abbrev Priority := Nat

/-- Comparison by priority used when sorting the dispatch list. -/
def priLE : (Priority × ChunkPos) → (Priority × ChunkPos) → Prop := fun a b => a.1 ≤ b.1

instance : DecidableRel priLE := fun a b => Nat.decLe a.1 b.1

instance : IsTotal (Priority × ChunkPos) priLE := ⟨fun a b => Nat.le_total a.1 b.1⟩

instance : IsTrans (Priority × ChunkPos) priLE := ⟨fun _ _ _ h h' => Nat.le_trans h h'⟩

/-- The collection loop of the send phase of `send_recv_chunks`: take every
`Some(pri)` entry of the pending map (in iteration order). -/
def sendPhaseToSend (pending : List (ChunkPos × Option Priority)) :
    List (Priority × ChunkPos) :=
  pending.filterMap fun e => e.2.map fun pri => (pri, e.1)

/-- The dispatch order of the send phase: the collected entries sorted by
ascending priority (`sort_unstable_by_key`). -/
def sendPhaseOrder (pending : List (ChunkPos × Option Priority)) :
    List (Priority × ChunkPos) :=
  List.insertionSort priLE (sendPhaseToSend pending)

/-- The pending map after the send phase: `Option::take` leaves `None` in
every dispatched entry (entries that already held `None` keep it). -/
def sendPhasePending (pending : List (ChunkPos × Option Priority)) :
    List (ChunkPos × Option Priority) :=
  pending.map fun e => (e.1, none)

/-- The inclusive integer range `a..=b` as a list. -/
def rangeList (a b : Int) : List Int :=
  (List.range (b + 1 - a).toNat).map fun (i : Nat) => a + (i : Int)

/-- Embedding of `Iterator::max` of `a..=b`. -/
def rangeMax (a b : Int) : Option Int := if a ≤ b then some b else none

/-- Embedding of `setup` in `world_gen.rs` computes
`num_pregen_chunks = (range.max().unwrap() * 2 + 1)^2`. -/
def num_pregen_chunks (a b : Int) : Option Int :=
  (rangeMax a b).map fun m => (m * 2 + 1) * (m * 2 + 1)

/-- Whether `setup` refuses to start: `num_pregen_chunks > chunks_cached`
(`None` when the range is empty and `max().unwrap()` panics). -/
def pregen_refused (a b : Int) (cached : Nat) : Option Bool :=
  (num_pregen_chunks a b).map fun n => decide ((cached : Int) < n)

/-- The chunk positions pregenerated by `setup`: `iproduct!(range, range)`. -/
def pregen_positions (a b : Int) : List ChunkPos :=
  (rangeList a b).flatMap fun x => (rangeList a b).map fun z => ⟨x, z⟩

/-- Embedding of `Seed` from `config/world.rs`. -/
inductive Seed where
  | random
  | set (n : Nat)
deriving DecidableEq

/-- Embedding of `WorldConfig` from `config/world.rs`; the inclusive range is modelled as
its endpoint pair. -/
structure WorldConfig where
  seed : Seed
  chunks_cached : Nat
  spawn : Option (ℚ × ℚ × ℚ)
  pregen_chunks : Int × Int
deriving DecidableEq

/-- Embedding of `WorldConfig::default` from `config/world.rs`. -/
def WorldConfig.default : WorldConfig :=
  { seed := .random
    chunks_cached := 4000
    spawn := none
    pregen_chunks := (-22, 22) }

/-- The initial value of the `SPAWN_POS` global from `lib.rs`. -/
def SPAWN_POS_DEFAULT : ℚ × ℚ × ℚ := (0, 200, 0)

/-- The spawn-height scan of `setup` over column `(0, 0)`, walking down from
`y`.  Air decrements `y` (underflowing at `0`); the first non-air cell either
breaks without a result (`y = 0`) or records `y - 50` (underflowing when
`y < 50`).  `usize` underflow is modelled as `Except.error ()`. -/
def spawnScanE (col : Nat → BlockState) : Nat → Except Unit (Option Nat)
  | 0 => if (col 0).isAir then .error () else .ok none
  | y + 1 =>
      if (col (y + 1)).isAir then spawnScanE col y
      else if y + 1 < 50 then .error ()
      else .ok (some (y + 1 - 50))

/-- Spawn selection of `setup`: an explicitly configured spawn wins;
otherwise scan column `(0, 0)` from the top and keep the previously held
`SPAWN_POS` value when the scan ends at `y = 0` without a hit. -/
def spawn_select (cfgSpawn : Option (ℚ × ℚ × ℚ)) (col : Nat → BlockState) :
    Except Unit (ℚ × ℚ × ℚ) :=
  match cfgSpawn with
  | some s => .ok s
  | none =>
      match spawnScanE col (SECTION_COUNT * 16 - 1) with
      | .error e => .error e
      | .ok none => .ok SPAWN_POS_DEFAULT
      | .ok (some y) => .ok (0, (y : ℚ), 0)


/-! ### Basic lemmas about the embedded data structures -/

theorem Chunk.data_set (c : Chunk) (x y z : Nat) (b : BlockState) (a b' c' : Nat) :
    (c.set_block_state x y z b).data a b' c' =
      if a = x ∧ b' = y ∧ c' = z then b else c.data a b' c' := rfl

theorem Chunk.section_count_set (c : Chunk) (x y z : Nat) (b : BlockState) :
    (c.set_block_state x y z b).section_count = c.section_count := rfl

theorem mem_rangeList {a b x : Int} : x ∈ rangeList a b ↔ a ≤ x ∧ x ≤ b := by
  simp only [rangeList, List.mem_map, List.mem_range]
  constructor
  · rintro ⟨i, hi, rfl⟩
    omega
  · intro h
    refine ⟨(x - a).toNat, ?_, ?_⟩ <;> omega

/-! ### C9: region coordinates are computed by mathematical floor division -/

theorem floor_div_regionSize (a : Int) : ⌊(a : ℚ) / REGION_SIZE⌋ = Int.fdiv a 16 := by
  rw [Int.fdiv_eq_ediv _ (by norm_num)]
  have h := Rat.floor_intCast_div_natCast a 16
  simpa [REGION_SIZE] using h

/-- C9: `chunkpos_to_regionpos` computes the true mathematical floor of
`x / 16` and `z / 16` in each coordinate (`Int.fdiv` is floor division), and
in particular the chunk at `(-1, -1)` maps to region `(-1, -1)`, not
`(0, 0)`. -/
theorem c9_regionpos_floor :
    (∀ p : ChunkPos, chunkpos_to_regionpos p = (Int.fdiv p.x 16, Int.fdiv p.z 16)) ∧
    chunkpos_to_regionpos ⟨-1, -1⟩ = (-1, -1) := by
  have h : ∀ p : ChunkPos, chunkpos_to_regionpos p = (Int.fdiv p.x 16, Int.fdiv p.z 16) := by
    intro p
    unfold chunkpos_to_regionpos
    rw [floor_div_regionSize, floor_div_regionSize]
  refine ⟨h, ?_⟩
  rw [h ⟨-1, -1⟩]
  decide

/-! ### C8: the default pregeneration range -/

/-- C8 counterexample: the default of `world.pregen_chunks` is not
`-12..=12`. -/
theorem c8_counterexample :
    ¬ (WorldConfig.default.pregen_chunks = ((-12 : Int), (12 : Int))) := by
  decide

/-- C8 (amended): the default value of `world.pregen_chunks` is the inclusive
range `-22..=22`, whose members are exactly the integers between `-22` and
`22`. -/
theorem c8_default_pregen :
    WorldConfig.default.pregen_chunks = ((-22 : Int), (22 : Int)) ∧
    ∀ x : Int, x ∈ rangeList WorldConfig.default.pregen_chunks.1
        WorldConfig.default.pregen_chunks.2 ↔ (-22 ≤ x ∧ x ≤ 22) :=
  ⟨rfl, fun _ => mem_rangeList⟩

/-! ### C4: startup validation of the pregeneration range -/

/-- C4 counterexample: with range `0..=3` and capacity `20` the code refuses
to start even though `|R|² = 16 ≤ 20`: the validation squares
`2·max(R) + 1 = 7`, not `|R| = b - a + 1`. -/
theorem c4_counterexample :
    pregen_refused 0 3 20 = some true ∧
    ¬ ((20 : Int) < ((3 : Int) - 0 + 1) * ((3 : Int) - 0 + 1)) := by
  constructor
  · decide
  · decide

/-- C4 (amended): for a non-empty range `a..=b`, startup refuses with a
configuration error exactly when `(2·b + 1)² > C` where `b = max(R)` (for the
symmetric default ranges `-b..=b` this equals `|R|²`); when it starts, the
pregenerated set is exactly `R × R`. -/
theorem c4_pregen_validation (a b : Int) (cached : Nat) (hab : a ≤ b) :
    (pregen_refused a b cached = some true ↔ (cached : Int) < (b * 2 + 1) * (b * 2 + 1)) ∧
    (∀ x z : Int, (ChunkPos.mk x z) ∈ pregen_positions a b ↔
      (a ≤ x ∧ x ≤ b ∧ a ≤ z ∧ z ≤ b)) := by
  constructor
  · unfold pregen_refused num_pregen_chunks rangeMax
    rw [if_pos hab]
    simp
  · intro x z
    unfold pregen_positions
    simp only [List.mem_flatMap, List.mem_map, mem_rangeList, ChunkPos.mk.injEq]
    constructor
    · rintro ⟨x1, hx1, z1, hz1, hx, hz⟩
      subst hx
      subst hz
      exact ⟨hx1.1, hx1.2, hz1.1, hz1.2⟩
    · rintro ⟨h1, h2, h3, h4⟩
      exact ⟨x, ⟨h1, h2⟩, z, ⟨h3, h4⟩, rfl, rfl⟩

/-- C4 witness: the validation theorem applied to the range `-2..=2` with
capacity `64`. -/
theorem c4_witness :
    (pregen_refused (-2) 2 64 = some true ↔
      ((64 : Int) < ((2 : Int) * 2 + 1) * ((2 : Int) * 2 + 1))) ∧
    (∀ x z : Int, (ChunkPos.mk x z) ∈ pregen_positions (-2) 2 ↔
      ((-2 : Int) ≤ x ∧ x ≤ 2 ∧ (-2 : Int) ≤ z ∧ z ≤ 2)) :=
  c4_pregen_validation (-2) 2 64 (by decide)

/-! ### C7: dispatch priorities are non-decreasing -/

/-- C7: in every send phase, the dispatch order produced from the pending map
has non-decreasing priorities, and every dispatched position has its pending
entry set to `None`. -/
theorem c7_dispatch_monotone (pending : List (ChunkPos × Option Priority)) :
    List.Pairwise priLE (sendPhaseOrder pending) ∧
    ∀ pr : Priority, ∀ pos : ChunkPos, (pr, pos) ∈ sendPhaseOrder pending →
      (pos, (none : Option Priority)) ∈ sendPhasePending pending := by
  constructor
  · exact List.sorted_insertionSort priLE _
  · intro pr pos h
    have h2 : (pr, pos) ∈ sendPhaseToSend pending :=
      (List.perm_insertionSort priLE _).mem_iff.mp h
    unfold sendPhaseToSend at h2
    simp only [List.mem_filterMap] at h2
    obtain ⟨e, hmem, heq⟩ := h2
    unfold sendPhasePending
    simp only [List.mem_map]
    refine ⟨e, hmem, ?_⟩
    obtain ⟨pri, hpri, heq2⟩ := Option.map_eq_some.mp heq
    obtain ⟨h1, h2⟩ := Prod.mk.injEq .. ▸ heq2
    simp_all

/-! ### C10: spawn scan hitting the bottom keeps the default spawn -/

theorem spawnScan_air_until (col : Nat → BlockState)
    (h0 : (col 0).isAir = false)
    (hair : ∀ y, y < SECTION_COUNT * 16 → 0 < y → (col y).isAir = true) :
    ∀ y, y < SECTION_COUNT * 16 → spawnScanE col y = .ok none := by
  intro y
  induction y with
  | zero => intro _; simp [spawnScanE, h0]
  | succ n ih =>
      intro h
      unfold spawnScanE
      rw [hair (n + 1) h (Nat.succ_pos n)]
      simp only [if_true]
      exact ih (by omega)

/-- C10: when the downward scan of column `(0,0)` finds its first non-air
block at `y = 0`, the loop breaks without recording a height: the published
spawn is the previously held default `(0, 200, 0)`. -/
theorem c10_spawn_scan_bottom (col : Nat → BlockState)
    (h0 : (col 0).isAir = false)
    (hair : ∀ y, y < SECTION_COUNT * 16 → 0 < y → (col y).isAir = true) :
    spawn_select none col = .ok SPAWN_POS_DEFAULT ∧
    spawnScanE col (SECTION_COUNT * 16 - 1) = .ok none := by
  have hs := spawnScan_air_until col h0 hair (SECTION_COUNT * 16 - 1)
    (by norm_num [SECTION_COUNT])
  refine ⟨?_, hs⟩
  unfold spawn_select
  rw [hs]

set_option maxRecDepth 8000 in
/-- C10 witness: a column that is air everywhere above a solid bottom cell. -/
theorem c10_witness :
    ((fun y => if y = 0 then BlockState.stone else BlockState.air) 0).isAir = false ∧
    spawn_select none (fun y => if y = 0 then BlockState.stone else BlockState.air) =
      .ok SPAWN_POS_DEFAULT :=
  ⟨by decide,
    (c10_spawn_scan_bottom (fun y => if y = 0 then BlockState.stone else BlockState.air)
      (by decide) (by decide)).1⟩

/-! ### C1: saving a chunk to a region never stores the chunk -/

/-- C1 (code bug): saving any chunk into a region whose file does not exist and
then loading that region back with the same settings yields a region that does
not contain the chunk: `Region::chunk` at the saved position is `None`, because
the upsert `region.chunks.iter().map(...)` is a lazy iterator that is never
consumed, and the fresh region is written with an empty chunk list. -/
theorem c1_region_save_drops_chunk (c : Chunk) (pos : ChunkPos) (s : TerrainSettings)
    (disk : Disk) (hmiss : disk (chunkpos_to_regionpos pos) = .missing) :
    (load_region (chunkpos_to_regionpos pos) s (save_chunk_to_region c pos s disk)).map
      (fun r => r.chunk pos) = .ok none := by
  have hload : load_region (chunkpos_to_regionpos pos) s disk = .error .notFound := by
    unfold load_region
    rw [hmiss]
  simp only [save_chunk_to_region, hload]
  simp [load_region, Region.chunk, List.find?]
  rfl

/-- C1 witness: the all-air chunk saved at `(0,0)` into an empty `./world/`
with the default settings is absent from the region read back. -/
theorem c1_witness :
    (load_region (chunkpos_to_regionpos ⟨0, 0⟩) (TerrainSettings.defaultWith 1)
      (save_chunk_to_region (Chunk.new SECTION_COUNT) ⟨0, 0⟩ (TerrainSettings.defaultWith 1)
        (fun _ => DiskFile.missing))).map (fun r => r.chunk ⟨0, 0⟩) = .ok none :=
  c1_region_save_drops_chunk _ _ _ _ rfl


/-! ### C6: with all block flags disabled the generated chunk is uniformly air -/

theorem genBlockStep_air_of_flags_off (st : ChunkWorkerState)
    (h1 : st.settings.enable_stone = false) (h2 : st.settings.enable_grass = false)
    (h3 : st.settings.enable_gravel = false) (h4 : st.settings.enable_sand = false)
    (h5 : st.settings.enable_water = false) (x z : Int) (y : Nat) (it : Bool) (d : Nat) :
    (genBlockStep st x z y it d).1 = .air := by
  unfold genBlockStep
  split_ifs <;> (try simp_all) <;> simp [apply_ite Prod.fst, ite_self]

theorem fillGo_air_of_flags_off (st : ChunkWorkerState)
    (h1 : st.settings.enable_stone = false) (h2 : st.settings.enable_grass = false)
    (h3 : st.settings.enable_gravel = false) (h4 : st.settings.enable_sand = false)
    (h5 : st.settings.enable_water = false) (x z : Int) (ox oz : Nat) :
    ∀ n (c : Chunk) (it : Bool) (d : Nat),
      (∀ a b c2, c.data a b c2 = .air) →
      ∀ a b c2, (fillGo st x z ox oz n c it d).data a b c2 = .air := by
  intro n
  induction n with
  | zero => intro c it d hc a b c2; exact hc a b c2
  | succ m ih =>
      intro c it d hc a b c2
      unfold fillGo
      apply ih
      intro a' b' c2'
      rw [Chunk.data_set]
      split
      · exact genBlockStep_air_of_flags_off st h1 h2 h3 h4 h5 x z m it d
      · exact hc a' b' c2'

theorem decorateColumnE_gate_off (st : ChunkWorkerState)
    (h : ((st.settings.enable_water && st.settings.enable_gravel) ||
      st.settings.enable_grass) = false) (c : Chunk) (x z : Int) (ox oz : Nat) :
    decorateColumnE st c x z ox oz = .ok c := by
  unfold decorateColumnE
  rw [h]
  simp

theorem foldlM_ok_inv {α β : Type} (P : β → Prop) (f : β → α → Except Unit β)
    (hf : ∀ b a, P b → ∃ b', f b a = .ok b' ∧ P b') :
    ∀ (l : List α) (b : β), P b → ∃ b', l.foldlM f b = .ok b' ∧ P b' := by
  intro l
  induction l with
  | nil => intro b hb; exact ⟨b, rfl, hb⟩
  | cons a l ih =>
      intro b hb
      obtain ⟨b1, hb1, hP1⟩ := hf b a hb
      obtain ⟨b2, hb2, hP2⟩ := ih b1 hP1
      refine ⟨b2, ?_, hP2⟩
      simp only [List.foldlM, hb1]
      exact hb2

theorem gen_blockE_air_of_flags_off (st : ChunkWorkerState)
    (h1 : st.settings.enable_stone = false) (h2 : st.settings.enable_grass = false)
    (h3 : st.settings.enable_gravel = false) (h4 : st.settings.enable_sand = false)
    (h5 : st.settings.enable_water = false) (c : Chunk) (x z : Int) (ox oz : Nat)
    (hc : ∀ a b c2, c.data a b c2 = .air) :
    ∃ c', gen_blockE st c x z ox oz = .ok c' ∧ ∀ a b c2, c'.data a b c2 = .air := by
  refine ⟨fillColumn st c x z ox oz, ?_, ?_⟩
  · unfold gen_blockE
    exact decorateColumnE_gate_off st (by rw [h5, h2, h3]; rfl) _ x z ox oz
  · exact fillGo_air_of_flags_off st h1 h2 h3 h4 h5 x z ox oz _ c false 0 hc

theorem gen_chunk_air_of_flags_off (st : ChunkWorkerState)
    (h1 : st.settings.enable_stone = false) (h2 : st.settings.enable_grass = false)
    (h3 : st.settings.enable_gravel = false) (h4 : st.settings.enable_sand = false)
    (h5 : st.settings.enable_water = false) (pos : ChunkPos) :
    ∃ c, gen_chunkE st pos = .ok c ∧ ∀ ox y oz, c.data ox y oz = .air := by
  have hinner : ∀ (oz : Nat) (c : Chunk), (∀ a b c2, c.data a b c2 = .air) →
      ∃ c', (List.range 16).foldlM
        (fun c (ox : Nat) =>
          gen_blockE st c ((ox : Int) + pos.x * 16) ((oz : Int) + pos.z * 16) ox oz) c = .ok c' ∧
        ∀ a b c2, c'.data a b c2 = .air := by
    intro oz
    exact foldlM_ok_inv _ _
      (fun c ox hc => gen_blockE_air_of_flags_off st h1 h2 h3 h4 h5 c _ _ ox oz hc) _
  have houter := foldlM_ok_inv (fun c : Chunk => ∀ a b c2, c.data a b c2 = .air)
    (fun c (oz : Nat) =>
      (List.range 16).foldlM
        (fun c (ox : Nat) =>
          gen_blockE st c ((ox : Int) + pos.x * 16) ((oz : Int) + pos.z * 16) ox oz) c)
    (fun c oz hc => hinner oz c hc) (List.range 16) (Chunk.new SECTION_COUNT)
    (fun _ _ _ => rfl)
  exact houter

/-- C6: with `enable_stone`, `enable_grass`, `enable_gravel`, `enable_sand`
and `enable_water` all `false`, generation succeeds (in particular the
decoration pass is skipped and places nothing) and every cell of the chunk
generated at any position is `AIR`. -/
theorem c6_flags_off_air (st : ChunkWorkerState)
    (h1 : st.settings.enable_stone = false) (h2 : st.settings.enable_grass = false)
    (h3 : st.settings.enable_gravel = false) (h4 : st.settings.enable_sand = false)
    (h5 : st.settings.enable_water = false) (pos : ChunkPos) :
    ∃ c, gen_chunkE st pos = .ok c ∧ ∀ ox y oz, c.data ox y oz = .air :=
  gen_chunk_air_of_flags_off st h1 h2 h3 h4 h5 pos

/-- The constant-zero noise field and family, used to instantiate the abstract
noise parameters at concrete inputs. -/
def zeroField : NoiseField := fun _ => 0

/-- The constant-zero noise family. -/
def zeroFamily : NoiseFamily := fun _ => zeroField

/-- Terrain settings with every block type disabled (scenario S6). -/
def flagsOffSettings : TerrainSettings :=
  { enable_gravel := false
    gravel_height := ⟨10, 3, 2, 2⟩
    enable_sand := false
    sand_offset := 5
    sand_height := ⟨10, 1, 2, 2⟩
    enable_stone := false
    stone_point_scaleing := 15
    enable_grass := false
    enable_water := false
    seed := 0 }

/-- C6 witness: the flags-off settings with zero noise at position `(0,0)`. -/
theorem c6_witness :
    (flagsOffSettings.enable_stone = false ∧ flagsOffSettings.enable_grass = false ∧
      flagsOffSettings.enable_gravel = false ∧ flagsOffSettings.enable_sand = false ∧
      flagsOffSettings.enable_water = false) ∧
    ∃ c, gen_chunkE (stateOf zeroFamily flagsOffSettings) ⟨0, 0⟩ = .ok c ∧
      ∀ ox y oz, c.data ox y oz = .air :=
  ⟨⟨rfl, rfl, rfl, rfl, rfl⟩,
    c6_flags_off_air (stateOf zeroFamily flagsOffSettings) rfl rfl rfl rfl rfl ⟨0, 0⟩⟩

/-! ### C5: load_region accepts exactly matching stored regions; the worker
falls back to generation on any load error -/

theorem load_region_ok_iff (disk : Disk) (rp : Int × Int) (s : TerrainSettings) (r : Region) :
    load_region rp s disk = .ok r ↔ (disk rp = .stored r ∧ r.settings = s) := by
  unfold load_region
  cases hd : disk rp with
  | missing => simp
  | corrupt => simp
  | stored r' =>
      dsimp only
      split_ifs with hset
      · constructor
        · intro h
          cases h
          exact ⟨rfl, hset⟩
        · rintro ⟨h1, h2⟩
          cases h1
          rfl
      · constructor
        · intro h
          cases h
        · rintro ⟨h1, h2⟩
          cases h1
          exact absurd h2 hset

/-- C5: `load_region` returns a region `r` iff the region file exists,
deserialises to `r`, and `r`'s embedded settings equal the settings passed in;
and whenever the cache misses and `load_region` fails (missing file, corrupt
file, or settings mismatch), `handle_chunk` proceeds exactly as the generate
path: it generates the chunk, saves it, caches it and emits it. -/
theorem c5_load_region_spec (disk : Disk) :
    (∀ (rp : Int × Int) (s : TerrainSettings) (r : Region),
      load_region rp s disk = .ok r ↔ (disk rp = .stored r ∧ r.settings = s)) ∧
    (∀ (w : ChunkWorker) (pos : ChunkPos) (e : LoadErr),
      cacheContains w.cache pos = false →
      load_region (chunkpos_to_regionpos pos) w.state.settings disk = .error e →
      handle_chunkE w disk pos =
        (gen_chunkE w.state pos).map fun ch =>
          ({ w with cache := cachePush w.cache w.cap pos ch },
            save_chunk_to_region ch pos w.state.settings disk, ch)) := by
  constructor
  · exact fun rp s r => load_region_ok_iff disk rp s r
  · intro w pos e hc hl
    unfold handle_chunkE
    rw [hc]
    simp only [Bool.false_eq_true, if_false]
    rw [hl]
    cases hg : gen_chunkE w.state pos with
    | error err => rfl
    | ok ch => rfl

/-- C5 witness: an empty disk at position `(0,0)` with the default settings
and an empty cache. -/
theorem c5_witness :
    (load_region (0, 0) (TerrainSettings.defaultWith 3) (fun _ => DiskFile.missing) =
        .ok ⟨(0, 0), TerrainSettings.defaultWith 3, []⟩ ↔
      ((fun _ => DiskFile.missing : Disk) (0, 0) =
          .stored ⟨(0, 0), TerrainSettings.defaultWith 3, []⟩ ∧
        (Region.mk (0, 0) (TerrainSettings.defaultWith 3) []).settings =
          TerrainSettings.defaultWith 3)) ∧
    handle_chunkE ⟨[], 100, stateOf zeroFamily (TerrainSettings.defaultWith 3)⟩
        (fun _ => DiskFile.missing) ⟨0, 0⟩ =
      (gen_chunkE (stateOf zeroFamily (TerrainSettings.defaultWith 3)) ⟨0, 0⟩).map fun ch =>
        (⟨cachePush [] 100 ⟨0, 0⟩ ch, 100, stateOf zeroFamily (TerrainSettings.defaultWith 3)⟩,
          save_chunk_to_region ch ⟨0, 0⟩ (TerrainSettings.defaultWith 3)
            (fun _ => DiskFile.missing), ch) :=
  ⟨(c5_load_region_spec (fun _ => DiskFile.missing)).1 (0, 0) (TerrainSettings.defaultWith 3)
      ⟨(0, 0), TerrainSettings.defaultWith 3, []⟩,
    (c5_load_region_spec (fun _ => DiskFile.missing)).2
      ⟨[], 100, stateOf zeroFamily (TerrainSettings.defaultWith 3)⟩ ⟨0, 0⟩ .notFound rfl rfl⟩


/-! ### C2: cache coherence after reconfiguration -/

theorem exceptMap_ok {α β : Type} (f : α → β) (a : α) :
    (Except.map f (Except.ok a) : Except Unit β) = .ok (f a) := rfl

theorem exceptMap_error {α β : Type} (f : α → β) (e : Unit) :
    (Except.map f (Except.error e) : Except Unit β) = .error e := rfl

theorem exceptBind_ok {α β : Type} (f : α → Except Unit β) (a : α) :
    (Except.ok a >>= f) = f a := rfl

theorem exceptBind_error {α β : Type} (f : α → Except Unit β) (e : Unit) :
    ((Except.error e : Except Unit α) >>= f) = .error e := rfl

/-- Invariant on the region store under parameters `p'`: every readable
region file tagged `p'` holds no chunks (true in particular when no file is
tagged `p'`; `save_chunk_to_region` can only write such regions because its
upsert never inserts). -/
def diskInv (p' : TerrainSettings) (disk : Disk) : Prop :=
  ∀ rp r, disk rp = .stored r → r.settings = p' → r.chunks = []

/-- Invariant on the cache: every cached chunk is the one generated by the
state induced by `p'`. -/
def cacheInv (S : NoiseFamily) (p' : TerrainSettings) (cache : List (ChunkPos × Chunk)) :
    Prop :=
  ∀ e ∈ cache, gen_chunkE (stateOf S p') e.1 = .ok e.2

theorem cacheGet_mem {cache : List (ChunkPos × Chunk)} {pos : ChunkPos} {c : Chunk}
    (h : cacheGet cache pos = some c) : (pos, c) ∈ cache := by
  unfold cacheGet at h
  obtain ⟨e, he, hmap⟩ := Option.map_eq_some.mp h
  have hmem := List.mem_of_find?_eq_some he
  have hp := List.find?_some he
  have hp2 : e.1 = pos := of_decide_eq_true hp
  have : e = (pos, c) := by
    cases e
    simp_all
  exact this ▸ hmem

theorem cacheInv_push {S : NoiseFamily} {p' : TerrainSettings}
    {cache : List (ChunkPos × Chunk)} {cap : Nat} {pos : ChunkPos} {c : Chunk}
    (h : cacheInv S p' cache) (hgen : gen_chunkE (stateOf S p') pos = .ok c) :
    cacheInv S p' (cachePush cache cap pos c) := by
  intro e he
  unfold cachePush at he
  have he2 := List.take_subset _ _ he
  rcases List.mem_cons.mp he2 with h1 | h1
  · rw [h1]
    exact hgen
  · exact h e (List.mem_of_mem_filter h1)

theorem cacheInv_promote {S : NoiseFamily} {p' : TerrainSettings}
    {cache : List (ChunkPos × Chunk)} {pos : ChunkPos}
    (h : cacheInv S p' cache) : cacheInv S p' (cachePromote cache pos) := by
  intro e he
  unfold cachePromote at he
  cases hg : cacheGet cache pos with
  | none => rw [hg] at he; exact h e he
  | some c0 =>
      rw [hg] at he
      rcases List.mem_cons.mp he with h1 | h1
      · rw [h1]
        exact h (pos, c0) (cacheGet_mem hg)
      · exact h e (List.mem_of_mem_filter h1)

theorem save_preserves_diskInv {p' : TerrainSettings} {disk : Disk} (ch : Chunk)
    (pos : ChunkPos) (hd : diskInv p' disk) :
    diskInv p' (save_chunk_to_region ch pos p' disk) := by
  intro rp r hr hs
  simp only [save_chunk_to_region] at hr
  by_cases heq : rp = chunkpos_to_regionpos pos
  · rw [if_pos heq] at hr
    cases hl : load_region (chunkpos_to_regionpos pos) p' disk with
    | ok r0 =>
        rw [hl] at hr
        cases hr
        obtain ⟨hstored, hset⟩ := (load_region_ok_iff disk _ p' r0).mp hl
        exact hd _ r0 hstored hset
    | error e =>
        rw [hl] at hr
        cases hr
        rfl
  · rw [if_neg heq] at hr
    exact hd rp r hr hs

theorem settings_stateOf (S : NoiseFamily) (p' : TerrainSettings) :
    (stateOf S p').settings = p' := rfl

theorem handle_chunk_inv {S : NoiseFamily} {p' : TerrainSettings} {w : ChunkWorker}
    {disk : Disk} {pos : ChunkPos} {out : ChunkWorker × Disk × Chunk}
    (hw : w.state = stateOf S p') (hd : diskInv p' disk) (hc : cacheInv S p' w.cache)
    (h : handle_chunkE w disk pos = .ok out) :
    gen_chunkE (stateOf S p') pos = .ok out.2.2 ∧
    out.1.state = stateOf S p' ∧ diskInv p' out.2.1 ∧ cacheInv S p' out.1.cache := by
  unfold handle_chunkE at h
  by_cases hcc : cacheContains w.cache pos = true
  · rw [hcc] at h
    simp only [if_true] at h
    cases hg : cacheGet w.cache pos with
    | none => rw [hg] at h; cases h
    | some c0 =>
        rw [hg] at h
        cases h
        refine ⟨hc (pos, c0) (cacheGet_mem hg), hw, hd, cacheInv_promote hc⟩
  · rw [Bool.not_eq_true] at hcc
    rw [hcc] at h
    simp only [Bool.false_eq_true, if_false] at h
    have hsettings : w.state.settings = p' := by rw [hw]; rfl
    cases hl : load_region (chunkpos_to_regionpos pos) w.state.settings disk with
    | ok region =>
        rw [hl] at h
        dsimp only at h
        have hiff := (load_region_ok_iff disk _ w.state.settings region).mp hl
        have hempty : region.chunks = [] :=
          hd _ region hiff.1 (by rw [← hsettings]; exact hiff.2)
        have hnone : region.chunk pos = none := by
          unfold Region.chunk
          rw [hempty]
          rfl
        rw [hnone] at h
        cases hgen : gen_chunkE w.state pos with
        | error e => rw [hgen] at h; cases h
        | ok ch =>
            rw [hgen] at h
            rw [exceptBind_ok] at h
            cases h
            have hgen2 : gen_chunkE (stateOf S p') pos = .ok ch := by rw [← hw]; exact hgen
            refine ⟨hgen2, hw, ?_, cacheInv_push hc hgen2⟩
            rw [hsettings]
            exact save_preserves_diskInv ch pos hd
    | error e =>
        rw [hl] at h
        dsimp only at h
        cases hgen : gen_chunkE w.state pos with
        | error e2 => rw [hgen] at h; cases h
        | ok ch =>
            rw [hgen] at h
            rw [exceptBind_ok] at h
            cases h
            have hgen2 : gen_chunkE (stateOf S p') pos = .ok ch := by rw [← hw]; exact hgen
            refine ⟨hgen2, hw, ?_, cacheInv_push hc hgen2⟩
            rw [hsettings]
            exact save_preserves_diskInv ch pos hd

theorem workerStep_inv {S : NoiseFamily} {p' : TerrainSettings} {w : ChunkWorker}
    {disk : Disk} {msg : WorkerMessage} {out : ChunkWorker × Disk × List WorkerResponse}
    (hmsg : msg.isSet = false)
    (hw : w.state = stateOf S p') (hd : diskInv p' disk) (hc : cacheInv S p' w.cache)
    (h : workerStepE S w disk msg = .ok out) :
    (∀ pos c, WorkerResponse.chunk pos c ∈ out.2.2 →
      gen_chunkE (stateOf S p') pos = .ok c) ∧
    out.1.state = stateOf S p' ∧ diskInv p' out.2.1 ∧ cacheInv S p' out.1.cache := by
  cases msg with
  | chunk pos =>
      simp only [workerStepE] at h
      cases hh : handle_chunkE w disk pos with
      | error e => rw [hh] at h; cases h
      | ok r =>
          rw [hh] at h
          rw [exceptMap_ok] at h
          cases h
          obtain ⟨hgen, hst, hdsk, hcache⟩ := handle_chunk_inv hw hd hc hh
          refine ⟨?_, hst, hdsk, hcache⟩
          intro pos2 c2 hmem
          rcases List.mem_singleton.mp hmem with h2
          cases h2
          exact hgen
  | emptyCache =>
      simp only [workerStepE] at h
      cases h
      exact ⟨fun pos c hmem => absurd hmem (List.not_mem_nil _), hw, hd,
        fun e he => absurd he (List.not_mem_nil _)⟩
  | getTerrainSettings =>
      simp only [workerStepE] at h
      cases h
      refine ⟨?_, hw, hd, hc⟩
      intro pos c hmem
      rcases List.mem_singleton.mp hmem with h2
      cases h2
  | setTerrainSettings new => cases hmsg

theorem runWorker_inv {S : NoiseFamily} {p' : TerrainSettings} :
    ∀ (msgs : List WorkerMessage) (w : ChunkWorker) (disk : Disk)
      (out : ChunkWorker × Disk × List WorkerResponse),
      (∀ m ∈ msgs, m.isSet = false) →
      w.state = stateOf S p' → diskInv p' disk → cacheInv S p' w.cache →
      runWorkerE S w disk msgs = .ok out →
      ∀ pos c, WorkerResponse.chunk pos c ∈ out.2.2 →
        gen_chunkE (stateOf S p') pos = .ok c := by
  intro msgs
  induction msgs with
  | nil =>
      intro w disk out hmsgs hw hd hc h pos c hmem
      cases h
      exact absurd hmem (List.not_mem_nil _)
  | cons m rest ih =>
      intro w disk out hmsgs hw hd hc h pos c hmem
      unfold runWorkerE at h
      cases hs : workerStepE S w disk m with
      | error e => rw [hs] at h; cases h
      | ok r =>
          rw [hs] at h
          rw [exceptBind_ok] at h
          cases hr : runWorkerE S r.1 r.2.1 rest with
          | error e => rw [hr] at h; cases h
          | ok r2 =>
              rw [hr] at h
              rw [exceptBind_ok] at h
              cases h
              obtain ⟨hresp, hst, hdsk, hcache⟩ :=
                workerStep_inv (hmsgs m (List.mem_cons_self m rest)) hw hd hc hs
              rcases List.mem_append.mp hmem with h1 | h1
              · exact hresp pos c h1
              · exact ih r.1 r.2.1 r2
                  (fun m2 hm2 => hmsgs m2 (List.mem_cons_of_mem m hm2))
                  hst hdsk hcache hr pos c h1

theorem applySet_state (S : NoiseFamily) (w : ChunkWorker) (new : TerrainSettings)
    (h : w.state = stateOf S w.state.settings) :
    (applySetTerrainSettings S w new).state = stateOf S new ∧
    (applySetTerrainSettings S w new).cache = [] := by
  refine ⟨?_, rfl⟩
  unfold applySetTerrainSettings
  dsimp only
  by_cases hs : new.seed = w.state.settings.seed
  · rw [if_neg (by simp [hs])]
    rw [h]
    unfold stateOf fields_from
    rw [hs]
  · rw [if_pos (by simpa using hs)]
    rfl

/-- C2 (amended): suppose the worker's noise fields were derived from its
current seed (true of the state built at startup with a fixed seed) and that
every region file readable under the new parameters `p'` holds no chunks (in
particular when no file is tagged `p'`; the store itself can only write such
regions, since the save upsert never inserts).  Then after `SetParams(p')`
every chunk emitted while handling subsequent messages, none of which is
another `SetParams`, equals `generate(p', fields_from(p'.seed), pos)`.
Without the store hypothesis the claim fails: a readable stored chunk is
returned from disk as-is (see the counterexample). -/
theorem c2_reconfig_coherence (S : NoiseFamily) (w : ChunkWorker) (disk : Disk)
    (p' : TerrainSettings) (msgs : List WorkerMessage)
    (out : ChunkWorker × Disk × List WorkerResponse)
    (hfields : w.state = stateOf S w.state.settings)
    (hnoset : ∀ m ∈ msgs, m.isSet = false)
    (hdisk : diskInv p' disk)
    (hrun : runWorkerE S w disk (WorkerMessage.setTerrainSettings p' :: msgs) = .ok out) :
    ∀ pos c, WorkerResponse.chunk pos c ∈ out.2.2 →
      gen_chunkE (stateOf S p') pos = .ok c := by
  intro pos c hmem
  unfold runWorkerE at hrun
  have hstep : workerStepE S w disk (WorkerMessage.setTerrainSettings p') =
      .ok (applySetTerrainSettings S w p', disk, [.terrainSettingsSet]) := rfl
  rw [hstep] at hrun
  rw [exceptBind_ok] at hrun
  cases hr : runWorkerE S (applySetTerrainSettings S w p') disk msgs with
  | error e => rw [hr] at hrun; cases hrun
  | ok r2 =>
      rw [hr] at hrun
      rw [exceptBind_ok] at hrun
      cases hrun
      obtain ⟨hst, hcache⟩ := applySet_state S w p' hfields
      rcases List.mem_append.mp hmem with h1 | h1
      · rcases List.mem_singleton.mp h1 with h2
        cases h2
      · exact runWorker_inv msgs (applySetTerrainSettings S w p') disk r2 hnoset hst hdisk
          (by rw [hcache]; exact fun e he => absurd he (List.not_mem_nil _)) hr pos c h1

/-- C2 counterexample: a region file tagged with the new parameters that
contains a stored chunk with `STONE` at cell `(0,0,0)`.  After `SetParams`
the worker serves that stored chunk, whose cell `(0,0,0)` is `STONE`, while
`generate(p', fields_from(p'.seed), (0,0))` has `AIR` there: the claim as
stated (every subsequent `GenerateChunk` emits the freshly generated chunk)
is false. -/
theorem c2_counterexample :
    ((runWorkerE zeroFamily ⟨[], 100, stateOf zeroFamily flagsOffSettings⟩
        (fun _ => DiskFile.stored ⟨(0, 0), flagsOffSettings, [⟨(0, 0), [⟨0, 0, 0, 1⟩]⟩]⟩)
        [WorkerMessage.setTerrainSettings flagsOffSettings,
          WorkerMessage.chunk ⟨0, 0⟩]).map
      (fun out => out.2.2.map fun resp =>
        match resp with
        | WorkerResponse.chunk _ c => some (c.data 0 0 0)
        | _ => none) = .ok [none, some BlockState.stone]) ∧
    ∃ c, gen_chunkE (stateOf zeroFamily flagsOffSettings) ⟨0, 0⟩ = .ok c ∧
      c.data 0 0 0 = .air := by
  constructor
  · rfl
  · obtain ⟨c, hc, hair⟩ := gen_chunk_air_of_flags_off (stateOf zeroFamily flagsOffSettings)
      rfl rfl rfl rfl rfl ⟨0, 0⟩
    exact ⟨c, hc, hair 0 0 0⟩

/-- C2 witness: the amended theorem applied after `SetParams` with an empty
store and a follow-up `EmptyCache` message. -/
theorem c2_witness :
    runWorkerE zeroFamily ⟨[], 100, stateOf zeroFamily flagsOffSettings⟩
        (fun _ => DiskFile.missing)
        [WorkerMessage.setTerrainSettings flagsOffSettings, WorkerMessage.emptyCache] =
      .ok (⟨[], 100, stateOf zeroFamily flagsOffSettings⟩, fun _ => DiskFile.missing,
        [WorkerResponse.terrainSettingsSet]) ∧
    (∀ pos c, WorkerResponse.chunk pos c ∈ [WorkerResponse.terrainSettingsSet] →
      gen_chunkE (stateOf zeroFamily flagsOffSettings) pos = .ok c) := by
  constructor
  · rfl
  · exact c2_reconfig_coherence zeroFamily ⟨[], 100, stateOf zeroFamily flagsOffSettings⟩
      (fun _ => DiskFile.missing) flagsOffSettings [WorkerMessage.emptyCache]
      (⟨[], 100, stateOf zeroFamily flagsOffSettings⟩, fun _ => DiskFile.missing,
        [WorkerResponse.terrainSettingsSet])
      rfl
      (by
        intro m hm
        rw [List.mem_singleton] at hm
        subst hm
        rfl)
      (by
        intro rp r hr hs
        exact DiskFile.noConfusion hr)
      rfl


/-! ### C3: the decoration pass can evaluate `y - 1` at `y = 0` -/

theorem noise01_mem {f : NoiseField} {p : DVec3} (h : -1 ≤ f p ∧ f p ≤ 1) :
    0 ≤ noise01 f p ∧ noise01 f p ≤ 1 := by
  unfold noise01
  constructor <;> [linarith [h.1]; linarith [h.2]]

/-- Below height 64 there is always terrain: `lower = 64 + 100·hilly ≥ 64`
because `hilly` is a square. -/
theorem terrain_low (st : ChunkWorkerState) (p : DVec3) (hy : p.y ≤ 64) :
    has_terrain_at st p = true := by
  unfold has_terrain_at
  dsimp only
  rw [if_pos]
  nlinarith [sq_nonneg (lerp (1/10) 1 (noise01 st.hilly (p.div 400)))]

/-- At height 264 and above there is never terrain when the `hilly` noise is
within `[-1, 1]`: then `hilly ≤ 1` and `upper = 64 + 200·hilly ≤ 264`. -/
theorem terrain_high (st : ChunkWorkerState)
    (hbh : ∀ p, -1 ≤ st.hilly p ∧ st.hilly p ≤ 1) (p : DVec3) (hy : 264 ≤ p.y) :
    has_terrain_at st p = false := by
  obtain ⟨ht0, ht1⟩ := noise01_mem (hbh (p.div 400))
  have hl0 : 0 ≤ lerp (1/10) 1 (noise01 st.hilly (p.div 400)) := by
    unfold lerp
    linarith
  have hl1 : lerp (1/10) 1 (noise01 st.hilly (p.div 400)) ≤ 1 := by
    unfold lerp
    linarith
  have hsq : (lerp (1/10) 1 (noise01 st.hilly (p.div 400)))^2 ≤ 1 := by nlinarith
  have hsq0 : 0 ≤ (lerp (1/10) 1 (noise01 st.hilly (p.div 400)))^2 := sq_nonneg _
  unfold has_terrain_at
  dsimp only
  rw [if_neg (by nlinarith), if_pos (by nlinarith)]

theorem rustRound_toNat_le_5 {q : ℚ} (h0 : 0 ≤ q) (h5 : q ≤ 5) :
    (rustRound q).toNat ≤ 5 := by
  unfold rustRound
  rw [if_pos h0]
  have h6 : ⌊q + 1/2⌋ < 6 := Int.floor_lt.mpr (by push_cast; linarith)
  omega

/-- The fill step keeps `depth ≤ 5` when the `stone` noise is within
`[-1, 1]`: the only increase is `round(noise01·5) ≤ 5` at a surface cell. -/
theorem genBlockStep_depth_le (st : ChunkWorkerState)
    (hbs : ∀ p, -1 ≤ st.stone p ∧ st.stone p ≤ 1) (x z : Int) (y : Nat) (it : Bool)
    (d : Nat) (hd : d ≤ 5) : (genBlockStep st x z y it d).2.2 ≤ 5 := by
  have hn := noise01_mem (hbs (DVec3.div ⟨(x : ℚ), (y : ℚ), (z : ℚ)⟩
    st.settings.stone_point_scaleing))
  unfold genBlockStep
  dsimp only
  split_ifs <;> (try dsimp only) <;>
    first
      | omega
      | exact rustRound_toNat_le_5 (by linarith [hn.1]) (by linarith [hn.2])

/-- On a terrain cell the fill step always leaves `in_terrain = true`. -/
theorem genBlockStep_it_of_terrain (st : ChunkWorkerState) (x z : Int) (y : Nat)
    (it : Bool) (d : Nat)
    (ht : has_terrain_at st ⟨(x : ℚ), (y : ℚ), (z : ℚ)⟩ = true) :
    (genBlockStep st x z y it d).2.1 = true := by
  unfold genBlockStep
  dsimp only
  rw [if_pos ht]
  split_ifs <;> rfl

/-- On a terrain cell with `in_terrain = true` the fill step decrements the
depth (with `0 - 1 = 0`: case B keeps depth `0`). -/
theorem genBlockStep_depth_of_terrain_it (st : ChunkWorkerState) (x z : Int) (y : Nat)
    (d : Nat) (ht : has_terrain_at st ⟨(x : ℚ), (y : ℚ), (z : ℚ)⟩ = true) :
    (genBlockStep st x z y true d).2.2 = d - 1 := by
  unfold genBlockStep
  dsimp only
  rw [if_pos ht, if_pos (rfl : true = true)]
  split_ifs <;> dsimp only <;> omega

/-- On a terrain cell with `in_terrain = true` and `depth = 0` (case B) and
stone disabled, the emitted block is `AIR`. -/
theorem genBlockStep_air_bottom (st : ChunkWorkerState)
    (hstone : st.settings.enable_stone = false) (x z : Int) (y : Nat)
    (ht : has_terrain_at st ⟨(x : ℚ), (y : ℚ), (z : ℚ)⟩ = true) :
    (genBlockStep st x z y true 0).1 = .air := by
  unfold genBlockStep
  dsimp only
  rw [if_pos ht, if_pos (rfl : true = true), if_neg (by omega : ¬ (0 : Nat) < 0)]
  rw [hstone]
  simp

/-- Above height 263 (no terrain, no water) the fill step emits `AIR`. -/
theorem genBlockStep_air_high (st : ChunkWorkerState)
    (hbh : ∀ p, -1 ≤ st.hilly p ∧ st.hilly p ≤ 1) (x z : Int) (y : Nat)
    (hy : 264 ≤ y) (it : Bool) (d : Nat) :
    (genBlockStep st x z y it d).1 = .air := by
  have ht : has_terrain_at st ⟨(x : ℚ), (y : ℚ), (z : ℚ)⟩ = false := by
    apply terrain_high st hbh
    show (264 : ℚ) ≤ ((y : ℕ) : ℚ)
    exact_mod_cast hy
  unfold genBlockStep
  dsimp only
  rw [if_neg (by rw [ht]; simp)]
  rw [if_neg]
  rintro ⟨h1, h2⟩
  unfold WATER_HEIGHT at h1
  omega

/-- Writes of the fill loop stay below the fuel and inside the column. -/
theorem fillGo_preserve (st : ChunkWorkerState) (x z : Int) (ox oz : Nat) :
    ∀ (n : Nat) (c : Chunk) (it : Bool) (d : Nat) (a b c2 : Nat),
      (n ≤ b ∨ a ≠ ox ∨ c2 ≠ oz) →
      (fillGo st x z ox oz n c it d).data a b c2 = c.data a b c2 := by
  intro n
  induction n with
  | zero => intro c it d a b c2 h; rfl
  | succ m ih =>
      intro c it d a b c2 h
      have h' : m ≤ b ∨ a ≠ ox ∨ c2 ≠ oz := by
        rcases h with h | h | h
        · exact Or.inl (by omega)
        · exact Or.inr (Or.inl h)
        · exact Or.inr (Or.inr h)
      unfold fillGo
      dsimp only
      rw [ih _ _ _ a b c2 h']
      rw [Chunk.data_set, if_neg]
      rintro ⟨h1, h2, h3⟩
      rcases h with h | h | h
      · omega
      · exact h h1
      · exact h h3

theorem fillGo_section_count (st : ChunkWorkerState) (x z : Int) (ox oz : Nat) :
    ∀ (n : Nat) (c : Chunk) (it : Bool) (d : Nat),
      (fillGo st x z ox oz n c it d).section_count = c.section_count := by
  intro n
  induction n with
  | zero => intro c it d; rfl
  | succ m ih =>
      intro c it d
      unfold fillGo
      dsimp only
      rw [ih]
      rfl

/-- Once `in_terrain` holds with `depth < fuel` inside the all-terrain zone
(`fuel ≤ 65`, every remaining `y ≤ 64`), the depth runs out before the bottom
and the cell at `y = 0` is written `AIR` (case B with stone disabled). -/
theorem fillGo_cell0_air_low (st : ChunkWorkerState)
    (hstone : st.settings.enable_stone = false) (x z : Int) (ox oz : Nat) :
    ∀ (n : Nat), n ≤ 65 → ∀ (c : Chunk) (d : Nat), d < n →
      (fillGo st x z ox oz n c true d).data ox 0 oz = .air := by
  intro n
  induction n with
  | zero => intro _ c d hd; omega
  | succ m ih =>
      intro hn c d hd
      have ht : has_terrain_at st ⟨(x : ℚ), (m : ℚ), (z : ℚ)⟩ = true := by
        apply terrain_low
        show ((m : ℕ) : ℚ) ≤ (64 : ℚ)
        exact_mod_cast (by omega : m ≤ 64)
      unfold fillGo
      dsimp only
      rw [genBlockStep_it_of_terrain st x z m true d ht,
        genBlockStep_depth_of_terrain_it st x z m d ht]
      cases m with
      | zero =>
          have hd0 : d = 0 := by omega
          subst hd0
          unfold fillGo
          rw [Chunk.data_set, if_pos ⟨rfl, rfl, rfl⟩]
          exact genBlockStep_air_bottom st hstone x z 0 ht
      | succ m2 =>
          exact ih (by omega) _ (d - 1) (by omega)

/-- From any fuel of at least 65 with `depth ≤ 5`, the bottom cell of the
fill ends up `AIR` (stone disabled, bounded stone noise). -/
theorem fillGo_cell0_air (st : ChunkWorkerState)
    (hstone : st.settings.enable_stone = false)
    (hbs : ∀ p, -1 ≤ st.stone p ∧ st.stone p ≤ 1) (x z : Int) (ox oz : Nat) :
    ∀ (n : Nat), 65 ≤ n → ∀ (c : Chunk) (it : Bool) (d : Nat), d ≤ 5 →
      (fillGo st x z ox oz n c it d).data ox 0 oz = .air := by
  intro n hn
  induction n, hn using Nat.le_induction with
  | base =>
      intro c it d hd
      cases it with
      | true => exact fillGo_cell0_air_low st hstone x z ox oz 65 (by omega) c d (by omega)
      | false =>
          have ht : has_terrain_at st ⟨(x : ℚ), ((64 : ℕ) : ℚ), (z : ℚ)⟩ = true := by
            apply terrain_low
            norm_num
          show (fillGo st x z ox oz (64 + 1) c false d).data ox 0 oz = _
          unfold fillGo
          dsimp only
          rw [genBlockStep_it_of_terrain st x z 64 false d ht]
          exact fillGo_cell0_air_low st hstone x z ox oz 64 (by omega) _
            (genBlockStep st x z 64 false d).2.2
            (by
              have := genBlockStep_depth_le st hbs x z 64 false d hd
              omega)
  | succ n hn ih =>
      intro c it d hd
      unfold fillGo
      dsimp only
      exact ih _ _ _ (genBlockStep_depth_le st hbs x z n it d hd)

/-- Every cell at height 264 or above ends up `AIR` after the fill. -/
theorem fillGo_air_above (st : ChunkWorkerState)
    (hbh : ∀ p, -1 ≤ st.hilly p ∧ st.hilly p ≤ 1) (x z : Int) (ox oz : Nat) :
    ∀ (n : Nat) (c : Chunk) (it : Bool) (d : Nat) (b : Nat), 264 ≤ b → b < n →
      (fillGo st x z ox oz n c it d).data ox b oz = .air := by
  intro n
  induction n with
  | zero => intro c it d b h1 h2; omega
  | succ m ih =>
      intro c it d b h1 h2
      by_cases hb : b = m
      · unfold fillGo
        dsimp only
        rw [fillGo_preserve st x z ox oz m _ _ _ ox b oz (Or.inl (by omega))]
        rw [Chunk.data_set, if_pos ⟨rfl, hb, rfl⟩]
        exact genBlockStep_air_high st hbh x z m (by omega) it d
      · unfold fillGo
        dsimp only
        exact ih _ _ _ b h1 (by omega)


theorem Chunk.block_stateE_ok (c : Chunk) {x y z : Nat} (hx : x < 16) (hz : z < 16)
    (hy : y < c.section_count * 16) : c.block_stateE x y z = .ok (c.data x y z) := by
  unfold Chunk.block_stateE
  rw [if_pos ⟨hx, hz, hy⟩]

/-- A decoration step strictly between the bottom and the top never panics
and never writes below its own height. -/
theorem decorateStepE_mid (st : ChunkWorkerState) (c : Chunk) (x z : Int) (ox oz y : Nat)
    (hx : ox < 16) (hz : oz < 16) (hy1 : 1 ≤ y) (hy2 : y + 1 < c.section_count * 16) :
    ∃ c', decorateStepE st c x z ox oz y = .ok c' ∧
      c'.section_count = c.section_count ∧
      ∀ b, b < y → c'.data ox b oz = c.data ox b oz := by
  have hy0 : ¬(y = 0) := by omega
  have hcur := Chunk.block_stateE_ok c hx hz (show y < c.section_count * 16 by omega)
  have hbelow := Chunk.block_stateE_ok c hx hz
    (show y - 1 < c.section_count * 16 by omega)
  have habove := Chunk.block_stateE_ok c hx hz
    (show y + 1 < c.section_count * 16 by omega)
  unfold decorateStepE
  simp only [hcur, hbelow, habove, if_neg hy0, exceptBind_ok]
  split_ifs <;>
    refine ⟨_, rfl, rfl, fun b hb => ?_⟩ <;>
    simp only [Chunk.data_set] <;>
    (repeat rw [if_neg (by rintro ⟨hh1, hh2, hh3⟩; omega)])

/-- The decoration step at the top cell of a column whose two topmost cells
are air does nothing: the `y + 1` read is never taken. -/
theorem decorateStepE_top (st : ChunkWorkerState) (c : Chunk) (x z : Int) (ox oz y : Nat)
    (hx : ox < 16) (hz : oz < 16) (hy1 : 1 ≤ y) (hy : y < c.section_count * 16)
    (hcur : c.data ox y oz = .air) (hbel : c.data ox (y - 1) oz = .air) :
    decorateStepE st c x z ox oz y = .ok c := by
  have hy0 : ¬(y = 0) := by omega
  have hc2 := Chunk.block_stateE_ok c hx hz hy
  have hb := Chunk.block_stateE_ok c hx hz (show y - 1 < c.section_count * 16 by omega)
  unfold decorateStepE
  simp only [hc2, exceptBind_ok, hcur, if_neg hy0, hb, hbel]
  simp [BlockState.isAir, BlockState.isLiquid]
  rfl

/-- The decoration step at `y = 0` on an air cell evaluates the underflowing
`y - 1` index and panics. -/
theorem decorateStepE_err0 (st : ChunkWorkerState) (c : Chunk) (x z : Int) (ox oz : Nat)
    (hx : ox < 16) (hz : oz < 16) (h0 : 0 < c.section_count * 16)
    (hcur : c.data ox 0 oz = .air) :
    decorateStepE st c x z ox oz 0 = .error () := by
  have hc2 := Chunk.block_stateE_ok c hx hz h0
  unfold decorateStepE
  rw [hc2, exceptBind_ok, hcur]
  rfl

/-- Running the decoration loop from any height strictly below the top of a
column whose bottom cell is air ends in the `y = 0` panic. -/
theorem decorateGo_err (st : ChunkWorkerState) (x z : Int) (ox oz : Nat)
    (hx : ox < 16) (hz : oz < 16) :
    ∀ (n : Nat) (c : Chunk), 1 ≤ n → n + 1 ≤ c.section_count * 16 →
      c.data ox 0 oz = .air → decorateGo st x z ox oz n c = .error () := by
  intro n
  induction n with
  | zero => intro c h; omega
  | succ m ih =>
      intro c hm hsec hair
      cases m with
      | zero =>
          unfold decorateGo
          rw [decorateStepE_err0 st c x z ox oz hx hz (by omega) hair]
          rfl
      | succ m2 =>
          unfold decorateGo
          obtain ⟨c', hstep, hsec', hpres⟩ :=
            decorateStepE_mid st c x z ox oz (m2 + 1) hx hz (by omega) (by omega)
          rw [hstep, exceptBind_ok]
          exact ih c' (by omega) (by rw [hsec']; omega)
            (by rw [hpres 0 (by omega)]; exact hair)

/-- The decoration pass of a 24-section column whose bottom cell is air and
whose two topmost cells are air panics, provided the gate
`(water && gravel) || grass` lets it run. -/
theorem decorateColumnE_err (st : ChunkWorkerState) (c : Chunk) (x z : Int) (ox oz : Nat)
    (hx : ox < 16) (hz : oz < 16)
    (hgate : ((st.settings.enable_water && st.settings.enable_gravel) ||
      st.settings.enable_grass) = true)
    (hsec : c.section_count = 24)
    (hair0 : c.data ox 0 oz = .air) (htop : c.data ox 383 oz = .air)
    (htop2 : c.data ox 382 oz = .air) :
    decorateColumnE st c x z ox oz = .error () := by
  unfold decorateColumnE
  rw [hgate]
  simp only [if_true]
  rw [hsec]
  show decorateGo st x z ox oz (383 + 1) c = .error ()
  unfold decorateGo
  rw [decorateStepE_top st c x z ox oz 383 hx hz (by omega) (by omega) htop
    (by exact htop2), exceptBind_ok]
  exact decorateGo_err st x z ox oz hx hz 383 c (by omega) (by omega) hair0

/-- With stone disabled and grass enabled (and bounded `stone`/`hilly` noise),
`gen_block` panics on every column: the fill leaves `AIR` at `y = 0`, the
decoration pass runs and its `y - 1` underflows there. -/
theorem gen_blockE_err (st : ChunkWorkerState)
    (hstone : st.settings.enable_stone = false)
    (hgrass : st.settings.enable_grass = true)
    (hbs : ∀ p, -1 ≤ st.stone p ∧ st.stone p ≤ 1)
    (hbh : ∀ p, -1 ≤ st.hilly p ∧ st.hilly p ≤ 1)
    (c : Chunk) (x z : Int) (ox oz : Nat) (hx : ox < 16) (hz : oz < 16)
    (hsec : c.section_count = 24) :
    gen_blockE st c x z ox oz = .error () := by
  unfold gen_blockE
  have hsec' : (fillColumn st c x z ox oz).section_count = 24 := by
    unfold fillColumn
    rw [fillGo_section_count]
    exact hsec
  have h0 : (fillColumn st c x z ox oz).data ox 0 oz = .air := by
    unfold fillColumn
    rw [hsec]
    exact fillGo_cell0_air st hstone hbs x z ox oz (24 * 16) (by omega) c false 0 (by omega)
  have h383 : (fillColumn st c x z ox oz).data ox 383 oz = .air := by
    unfold fillColumn
    rw [hsec]
    exact fillGo_air_above st hbh x z ox oz (24 * 16) c false 0 383 (by omega) (by omega)
  have h382 : (fillColumn st c x z ox oz).data ox 382 oz = .air := by
    unfold fillColumn
    rw [hsec]
    exact fillGo_air_above st hbh x z ox oz (24 * 16) c false 0 382 (by omega) (by omega)
  exact decorateColumnE_err st _ x z ox oz hx hz (by rw [hgrass]; simp) hsec' h0 h383 h382

theorem foldlM_error_head {α β : Type} (f : β → α → Except Unit β) (a : α) (l : List α)
    (b : β) (e : Unit) (h : f b a = .error e) : (a :: l).foldlM f b = .error e := by
  simp only [List.foldlM, h]
  rfl

/-- C3 (code bug): whenever `enable_stone = false` and `enable_grass = true`
(with the `stone` and `hilly` noise fields in their documented `[-1, 1]`
range), chunk generation panics at every position: the decoration pass
reaches `y = 0` on an `AIR` cell and evaluates the underflowing `y - 1`
index, so generation does not complete.  This contradicts the claim that the
decoration pass never reads `y - 1` at `y = 0` for every parameter
setting. -/
theorem c3_decoration_underflow (st : ChunkWorkerState)
    (hstone : st.settings.enable_stone = false)
    (hgrass : st.settings.enable_grass = true)
    (hbs : ∀ p, -1 ≤ st.stone p ∧ st.stone p ≤ 1)
    (hbh : ∀ p, -1 ≤ st.hilly p ∧ st.hilly p ≤ 1)
    (pos : ChunkPos) :
    gen_chunkE st pos = .error () := by
  unfold gen_chunkE
  rw [List.range_succ_eq_map 15]
  apply foldlM_error_head
  apply foldlM_error_head
  exact gen_blockE_err st hstone hgrass hbs hbh (Chunk.new SECTION_COUNT) _ _ 0 0
    (by omega) (by omega) rfl

/-- The failing parameter setting for C3: everything off except grass. -/
def stoneOffSettings : TerrainSettings :=
  { flagsOffSettings with enable_grass := true }

/-- C3 witness: zero noise, stone disabled, grass enabled, position `(0,0)`:
generation panics. -/
theorem c3_witness :
    ((stateOf zeroFamily stoneOffSettings).settings.enable_stone = false ∧
      (stateOf zeroFamily stoneOffSettings).settings.enable_grass = true) ∧
    gen_chunkE (stateOf zeroFamily stoneOffSettings) ⟨0, 0⟩ = .error () :=
  ⟨⟨rfl, rfl⟩,
    c3_decoration_underflow (stateOf zeroFamily stoneOffSettings) rfl rfl
      (fun p => by
        constructor <;> norm_num [stateOf, fields_from, zeroFamily, zeroField])
      (fun p => by
        constructor <;> norm_num [stateOf, fields_from, zeroFamily, zeroField])
      ⟨0, 0⟩⟩

end VP
